import Mathlib

/-!
# jisho-api: extraction and cache-aside handler of `main.go`

A shallow embedding of `src/main.go`.

* Go strings are embedded as `List Char` (`Text`): the sequence of the string's
  runes.  This is exact for well-formed UTF-8 text, where `[]rune(s)` and
  `string(r)` are inverse to each other and `len(s) > 0` means "not empty".
* Go `int` is 64 bit; it is embedded as `Int`.  Every integer the program
  computes stays inside the 64 bit range (`strconv.Atoi` clamps), so no
  wrap-around occurs.
* The library functions the program calls (`strings`, `strconv`, `fmt`) are
  embedded from their documented behaviour.
* The collaborators (redis, the network, `encoding/json`) are parameters.
-/

namespace JishoApi

/-- A Go string, as the sequence of its runes. -/
abbrev Text := List Char

/-! ## Library functions -/

namespace unicode

/-- Go `unicode.IsSpace`: the Latin-1 spaces `\t \n \v \f \r ' '`, U+0085, U+00A0,
and the other code points of category Z or property Pattern_White_Space. -/
def IsSpace (r : Char) : Bool :=
  let n := r.toNat
  (9 ≤ n && n ≤ 13) || n == 32 || n == 0x85 || n == 0xA0 || n == 0x1680 ||
  (0x2000 ≤ n && n ≤ 0x200A) || n == 0x2028 || n == 0x2029 || n == 0x202F ||
  n == 0x205F || n == 0x3000

end unicode

namespace strings

/-- Go `strings.TrimSpace`: all leading and trailing white space removed. -/
def TrimSpace (s : Text) : Text :=
  ((s.dropWhile unicode.IsSpace).reverse.dropWhile unicode.IsSpace).reverse

/-- Go `strings.Index`: the position of the first instance of `substr` in `s`,
`none` (Go: `-1`) when `substr` is not present. -/
def Index : Text → Text → Option Nat
  | [], substr => if substr.isEmpty then some 0 else none
  | c :: rest, substr =>
    if substr.isPrefixOf (c :: rest) then some 0
    else (Index rest substr).map (· + 1)

/-- Go `strings.Contains`: `Index(s, substr) >= 0`. -/
def Contains (s substr : Text) : Bool := (Index s substr).isSome

/-- The loop of Go `strings.Split` (`genSplit`): cut at the first instance of
`sep`, continue behind it.  The first argument bounds the number of cuts. -/
def splitLoop (sep : Text) : Nat → Text → List Text
  | 0, s => [s]
  | n + 1, s =>
    match Index s sep with
    | none => [s]
    | some m => s.take m :: splitLoop sep n (s.drop (m + sep.length))

/-- Go `strings.Split`: all substrings of `s` separated by `sep`; one element
per rune when `sep` is empty.  Go sizes the result as `Count(s, sep) + 1`, the
number of cuts is at most `len(s)`. -/
def Split (s sep : Text) : List Text :=
  if sep.isEmpty then s.map (fun c => [c]) else splitLoop sep s.length s

/-- Go `strings.Join`. -/
def Join (elems : List Text) (sep : Text) : Text := sep.intercalate elems

end strings

namespace fmt

/-- One decimal digit. -/
def digit (d : Nat) : Char := Char.ofNat (48 + d)

/-- The digit loop of Go `fmt` for base 10: digits are produced from the least
significant one and put in front of what is already there.  The first argument
bounds the number of iterations. -/
def fmtDecimal : Nat → Nat → Text → Text
  | 0, _, acc => acc
  | fuel + 1, u, acc =>
    if 10 ≤ u then fmtDecimal fuel (u / 10) (digit (u % 10) :: acc)
    else digit u :: acc

/-- The verb `%d` applied to an `int`. -/
def formatInt (n : Int) : Text :=
  if n < 0 then '-' :: fmtDecimal (n.natAbs + 1) n.natAbs []
  else fmtDecimal (n.natAbs + 1) n.natAbs []

end fmt

namespace strconv

/-- The error of a failed conversion (`*strconv.NumError`). -/
inductive NumError where
  | ErrSyntax
  | ErrRange
  deriving DecidableEq, Repr

/-- The value of an ASCII digit, `none` for any other rune. -/
def digitVal (c : Char) : Option Nat :=
  if 48 ≤ c.toNat ∧ c.toNat ≤ 57 then some (c.toNat - 48) else none

/-- The digit loop of Go `strconv.ParseUint(s, 10, 64)`: the first rune that is
not a digit is a syntax error; a value above `2^64 - 1` is a range error, with
the value clamped to `2^64 - 1`. -/
def parseUintLoop : Text → Nat → Nat × Option NumError
  | [], n => (n, none)
  | c :: rest, n =>
    match digitVal c with
    | none => (0, some NumError.ErrSyntax)
    | some d =>
      if (2 ^ 64 - 1) / 10 + 1 ≤ n then (2 ^ 64 - 1, some NumError.ErrRange)
      else if 2 ^ 64 - 1 < n * 10 + d then (2 ^ 64 - 1, some NumError.ErrRange)
      else parseUintLoop rest (n * 10 + d)

/-- Go `strconv.ParseUint(s, 10, 64)`. -/
def ParseUint (s : Text) : Nat × Option NumError :=
  if s.isEmpty then (0, some NumError.ErrSyntax) else parseUintLoop s 0

/-- Go `strconv.ParseInt(s, 10, 0)` on a 64 bit platform: an optional sign, then
`ParseUint`; a value outside `[-2^63, 2^63 - 1]` is a range error, with the value
clamped to the nearest bound. -/
def ParseInt (s : Text) : Int × Option NumError :=
  match s with
  | [] => (0, some NumError.ErrSyntax)
  | c :: rest =>
    let neg := c == '-'
    let body := if c == '+' ∨ c == '-' then rest else s
    match ParseUint body with
    | (_, some NumError.ErrSyntax) => (0, some NumError.ErrSyntax)
    | (un, _) =>
      if ¬ neg ∧ 2 ^ 63 ≤ un then (2 ^ 63 - 1, some NumError.ErrRange)
      else if neg ∧ 2 ^ 63 < un then (-(2 ^ 63), some NumError.ErrRange)
      else if neg then (-(un : Int), none)
      else ((un : Int), none)

/-- Go `strconv.Atoi`: `ParseInt(s, 10, 0)` converted to `int`.  (Go has a fast
path for short inputs, which returns the same results.) -/
def Atoi (s : Text) : Int × Option NumError := ParseInt s

end strconv

/-! ## Data model (`main.go`, lines 22-34) -/

/-- One sense of an entry. -/
structure JishoConceptMeaning where
  Value : Text
  Tags : List Text
  deriving DecidableEq, Repr

/-- One lexical entry. -/
structure JishoConcept where
  Writing : Text
  Reading : Text
  Meanings : List JishoConceptMeaning
  Tags : List Text
  deriving DecidableEq, Repr

/-! ## The scraping callback of `SearchJisho` (lines 159-213) -/

/-- What the selectors of the callback find in one `div.exact_block > div.concept_light`
element, in document order. -/
structure ConceptLight where
  /-- The text of `... > span.text` (`writingEl.Text()`). -/
  writingText : Text
  /-- The text of each element of `... > span.furigana > span` (`readingEl`). -/
  furigana : List Text
  /-- For each `div.meaning-tags` element: the `Data` of its first child node,
  `none` when the element has no child (`FirstChild == nil`). -/
  meaningTags : List (Option Text)
  /-- For each `div.meaning-definition` element: the text of its
  `span.meaning-meaning`. -/
  meaningDefinitions : List Text
  /-- The text of each `span.concept_light-tag` inside `div.concept_light-status`. -/
  statusTags : List Text
  deriving DecidableEq, Repr

/-- A Go run-time panic. -/
inductive Panic where
  /-- An index expression `a[i]` with `i` outside of `a`. -/
  | indexOutOfRange
  /-- A field of a nil pointer is read. -/
  | nilDereference
  deriving DecidableEq, Repr

deriving instance DecidableEq for Except

/-- The body of `readingEl.Each` (lines 166-173), run over the annotation slots
from index `i` on; `reading` is the accumulator. -/
def readingLoop (writing : Text) : Nat → List Text → Text → Except Panic Text
  | _, [], reading => .ok reading
  | i, charReading :: rest, reading =>
    if charReading.length > 0 then
      match writing[i]? with
      | none => .error .indexOutOfRange
      | some r => readingLoop writing (i + 1) rest (reading ++ ([r] ++ ['('] ++ charReading ++ [')']))
    else
      match writing[i]? with
      | none => .error .indexOutOfRange
      | some r => readingLoop writing (i + 1) rest (reading ++ [r])

/-- The body of `Find("div.meaning-definition").Each` (lines 180-194), run over the
definition blocks from index `i` on; `meanings` is the accumulator.
`meaningsTagsEls.Get(i)` panics outside of the selection, `.FirstChild.Data`
panics when the tag block has no child. -/
def meaningsLoop (meaningsTagsEls : List (Option Text)) :
    Nat → List Text → List JishoConceptMeaning → Except Panic (List JishoConceptMeaning)
  | _, [], meanings => .ok meanings
  | i, meaning :: rest, meanings =>
    match meaningsTagsEls[i]? with
    | none => .error .indexOutOfRange
    | some none => .error .nilDereference
    | some (some meaningTagsElText) =>
      if !strings.Contains meaningTagsElText "Other forms".toList
          && !strings.Contains meaningTagsElText "Notes".toList then
        meaningsLoop meaningsTagsEls (i + 1) rest
          (meanings ++ [{ Value := meaning, Tags := strings.Split meaningTagsElText ", ".toList }])
      else
        meaningsLoop meaningsTagsEls (i + 1) rest meanings

/-- The callback registered with `c.OnHTML` (lines 159-213) for one result block. -/
def scrapeConcept (e : ConceptLight) : Except Panic JishoConcept :=
  let writing := strings.TrimSpace e.writingText
  match readingLoop writing 0 e.furigana [] with
  | .error p => .error p
  | .ok reading =>
    match meaningsLoop e.meaningTags 0 e.meaningDefinitions [] with
    | .error p => .error p
    | .ok meanings =>
      .ok { Writing := writing, Reading := reading, Meanings := meanings,
            Tags := e.statusTags.map strings.TrimSpace }

/-- The callback run on every result block of the page, in document order, each
result appended to `concepts`. -/
def scrapeAll : List ConceptLight → List JishoConcept → Except Panic (List JishoConcept)
  | [], concepts => .ok concepts
  | e :: rest, concepts =>
    match scrapeConcept e with
    | .error p => .error p
    | .ok scrapedConcept => scrapeAll rest (concepts ++ [scrapedConcept])

/-! ## Collaborators and effects -/

/-- The error of a redis command: `redis.Nil` (no such key) or any other error. -/
inductive RedisError where
  | Nil
  | other (msg : Text)
  deriving DecidableEq, Repr

/-- The error of `c.Visit` (transport failure, status code that is not 2xx). -/
structure VisitError where
  msg : Text
  deriving DecidableEq, Repr

/-- The collaborators of the `/search` handler. -/
structure Collaborators where
  /-- The outcome of `redisClient.Get(ctx, key).Result()`. -/
  redisGet : Text → Except RedisError Text
  /-- The outcome of fetching a URL: an error, or the result blocks of the page. -/
  visit : Text → Except VisitError (List ConceptLight)
  /-- The function `json.Marshal` on `[]JishoConcept`. -/
  jsonMarshal : List JishoConcept → Text
  /-- The function `json.Unmarshal(data, &v)`: data and the old value of `v` to
  the new value of `v`. -/
  jsonUnmarshal : Text → List JishoConcept → List JishoConcept

/-- An observable action of the handler on a collaborator. -/
inductive Effect where
  | redisGet (key : Text)
  | redisSet (key : Text) (value : Text) (expiration : Nat)
  | visit (url : Text)
  deriving DecidableEq, Repr

/-- How a run ends early. -/
inductive Abort where
  /-- The process exits: `logger.Fatal()`. -/
  | fatal
  /-- A panic, which `middleware.Recoverer` turns into a status 500. -/
  | panic (p : Panic)
  deriving DecidableEq, Repr

/-- The effects of a run, in order, and its result. -/
structure Run (α : Type) where
  effects : List Effect
  result : Except Abort α

/-! ## `SearchJisho` (lines 148-221) -/

/-- The URL of line 215: `fmt.Sprintf("https://jisho.org/search/%s?page=%d", query, page)`. -/
def searchURL (query : Text) (page : Int) : Text :=
  "https://jisho.org/search/".toList ++ query ++ "?page=".toList ++ fmt.formatInt page

/-- The function `SearchJisho`: visit the URL, scrape every result block; a failed
visit ends the process. -/
def SearchJisho (c : Collaborators) (query : Text) (page : Int) : Run (List JishoConcept) :=
  { effects := [Effect.visit (searchURL query page)]
    result :=
      match c.visit (searchURL query page) with
      | .error _ => .error Abort.fatal
      | .ok blocks =>
        match scrapeAll blocks [] with
        | .error p => .error (Abort.panic p)
        | .ok concepts => .ok concepts }

/-! ## The `/search/*` handler (lines 99-137) -/

/-- Go `url.Values.Get`: the first value of the key, the empty string when the
key is absent. -/
def queryGet (value : Option Text) : Text := value.getD []

/-- Lines 102-108: the page number of a request whose `page` parameter is `value`. -/
def searchPageParam (value : Option Text) : Int :=
  let n := (strconv.Atoi (queryGet value)).1
  if n = 0 then 1 else n

/-- The key of line 115: `fmt.Sprintf("jisho-concept-query:%s@%d", searchQuery, searchPageParam)`. -/
def cacheKey (searchQuery : Text) (page : Int) : Text :=
  "jisho-concept-query:".toList ++ searchQuery ++ "@".toList ++ fmt.formatInt page

/-- The handler of `/search/*`: the result is the body of the response. -/
def searchHandler (c : Collaborators) (useRedisCache : Bool) (searchQuery : Text)
    (pageValue : Option Text) : Run Text :=
  let page := searchPageParam pageValue
  if useRedisCache then
    let key := cacheKey searchQuery page
    match c.redisGet key with
    | .ok cacheResp =>
      { effects := [Effect.redisGet key]
        result := .ok (c.jsonMarshal (c.jsonUnmarshal cacheResp [])) }
    | .error _ =>
      let search := SearchJisho c searchQuery page
      match search.result with
      | .error a => { effects := Effect.redisGet key :: search.effects, result := .error a }
      | .ok jishoConcepts =>
        { effects := Effect.redisGet key :: search.effects
            ++ [Effect.redisSet key (c.jsonMarshal jishoConcepts) 0]
          result := .ok (c.jsonMarshal jishoConcepts) }
  else
    let search := SearchJisho c searchQuery page
    match search.result with
    | .error a => { effects := search.effects, result := .error a }
    | .ok jishoConcepts =>
      { effects := search.effects, result := .ok (c.jsonMarshal jishoConcepts) }

/-! ## Start-up configuration (lines 53-80) -/

/-- The fields of `redis.Options` the program sets. -/
structure RedisOptions where
  Addr : Text
  Password : Text
  DB : Int
  deriving DecidableEq, Repr

/-- Lines 58-63: the database index computed from the text of `JISHO_API_REDIS_DB`. -/
def redisDb (redisDbStr : Text) : Int :=
  match strconv.Atoi redisDbStr with
  | (num, err) => if err ≠ none then num else 0

/-- Lines 56-71: the options the redis client is created with, `none` when
`JISHO_API_REDIS_ADDR` is empty and no client is created.  `getenv` is
`os.Getenv`, the empty string for a variable that is not set. -/
def redisClientOptions (getenv : Text → Text) : Option RedisOptions :=
  let redisAddr := getenv "JISHO_API_REDIS_ADDR".toList
  let redisPass := getenv "JISHO_API_REDIS_PASS".toList
  let redisDbStr := getenv "JISHO_API_REDIS_DB".toList
  if redisAddr ≠ [] then
    some { Addr := redisAddr, Password := redisPass, DB := redisDb redisDbStr }
  else none

/-! ## Definitions used to state the properties -/

/-- The segment of the reading that one character and its annotation slot
contribute: the character alone for an empty slot, the character followed by
the slot text in parentheses otherwise. -/
def readingSegment (r : Char) (slot : Text) : Text :=
  if slot = [] then [r] else [r] ++ "(".toList ++ slot ++ ")".toList

/-- A tag text is filtered out when it contains "Other forms" or "Notes". -/
def isFiltered (tagText : Text) : Bool :=
  strings.Contains tagText "Other forms".toList || strings.Contains tagText "Notes".toList

/-- The meanings of the positions that are not filtered out, in document order. -/
def keptMeanings (tagTexts defs : List Text) : List JishoConceptMeaning :=
  ((tagTexts.zip defs).filter (fun p => !isFiltered p.1)).map
    (fun p => { Value := p.2, Tags := strings.Split p.1 ", ".toList })

/-- The effect is a fetch of a page. -/
def Effect.isVisit : Effect → Bool
  | Effect.visit _ => true
  | _ => false

/-- The effect is a cache write. -/
def Effect.isRedisSet : Effect → Bool
  | Effect.redisSet _ _ _ => true
  | _ => false

/-- The value of a decimal numeral. -/
def decodeDecimal (s : Text) : Nat :=
  s.foldl (fun a c => a * 10 + (c.toNat - 48)) 0

/-! ## Sample inputs -/

/-- A result block with one character and two annotation slots. -/
def blockTwoSlots : ConceptLight :=
  { writingText := "a".toList, furigana := [[], []], meaningTags := [],
    meaningDefinitions := [], statusTags := [] }

/-- A result block with a definition block and no tag block. -/
def blockNoTags : ConceptLight :=
  { writingText := "a".toList, furigana := [[]], meaningTags := [],
    meaningDefinitions := ["b".toList], statusTags := [] }

/-- A result block whose tag block has no child node. -/
def blockEmptyTag : ConceptLight :=
  { writingText := "a".toList, furigana := [[]], meaningTags := [none],
    meaningDefinitions := ["b".toList], statusTags := [] }

/-- A well-formed result block. -/
def blockKyou : ConceptLight :=
  { writingText := " 今日は ".toList
    furigana := ["きょう".toList, [], []]
    meaningTags := [some "Noun, Adverb".toList, some "Other forms".toList]
    meaningDefinitions := ["today".toList, "x".toList]
    statusTags := [" Common word ".toList] }

/-- Three tag texts, the second one of a block that is no definition. -/
def sampleTagTexts : List Text :=
  ["Noun".toList, "Other forms".toList, "Noun, Suru verb".toList]

/-- Three definition texts. -/
def sampleDefinitions : List Text := ["a".toList, "b".toList, "c".toList]

/-- Collaborators with a cache that holds the same value under every key. -/
def fullCache : Collaborators :=
  { redisGet := fun _ => .ok "[]".toList
    visit := fun _ => .ok [blockKyou]
    jsonMarshal := fun cs => cs.flatMap (fun e => e.Writing)
    jsonUnmarshal := fun _ v => v }

/-- Collaborators with an empty cache. -/
def emptyCache : Collaborators :=
  { redisGet := fun _ => .error RedisError.Nil
    visit := fun _ => .ok [blockKyou]
    jsonMarshal := fun cs => cs.flatMap (fun e => e.Writing)
    jsonUnmarshal := fun _ v => v }

/-- Collaborators with an empty cache and a page that holds `blockTwoSlots`. -/
def emptyCacheTwoSlots : Collaborators :=
  { redisGet := fun _ => .error RedisError.Nil
    visit := fun _ => .ok [blockTwoSlots]
    jsonMarshal := fun cs => cs.flatMap (fun e => e.Writing)
    jsonUnmarshal := fun _ v => v }

/-- Collaborators with an empty cache and a fetch that fails. -/
def emptyCacheNoNetwork : Collaborators :=
  { redisGet := fun _ => .error RedisError.Nil
    visit := fun _ => .error { msg := "Service Unavailable".toList }
    jsonMarshal := fun cs => cs.flatMap (fun e => e.Writing)
    jsonUnmarshal := fun _ v => v }

/-- A result block with two tag blocks and two definition blocks, the second tag
block without a child node. -/
def blockSecondTagEmpty : ConceptLight :=
  { writingText := "a".toList, furigana := [[]]
    meaningTags := [some "Noun".toList, none]
    meaningDefinitions := ["b".toList, "c".toList], statusTags := [] }

/-- An environment with a redis address and the database index 5. -/
def envDbFive (name : Text) : Text :=
  if name = "JISHO_API_REDIS_ADDR".toList then "localhost:6379".toList
  else if name = "JISHO_API_REDIS_DB".toList then "5".toList
  else []

end JishoApi

namespace JishoApi

/-! ## The handler -/

/-- A conversion that fails with a syntax error returns the value 0. -/
theorem atoi_syntax_value (t : Text)
    (h : (strconv.Atoi t).2 = some strconv.NumError.ErrSyntax) :
    (strconv.Atoi t).1 = 0 := by
  unfold strconv.Atoi strconv.ParseInt at *
  cases t with
  | nil => rfl
  | cons c rest =>
    simp only at h ⊢
    split
    · rfl
    · rename_i un e hne heq
      rw [heq] at h
      simp only at h
      split_ifs at h ⊢ <;> simp_all

/-- A text that does not start with a minus sign converts to a value that is
not negative. -/
theorem atoi_nonneg_of_no_minus (t : Text) (h : t.head? ≠ some '-') :
    0 ≤ (strconv.Atoi t).1 := by
  unfold strconv.Atoi strconv.ParseInt
  cases t with
  | nil => simp
  | cons c rest =>
    have hc : ¬ (c == '-') = true := by
      intro hc
      apply h
      simp only [beq_iff_eq] at hc
      simp [hc]
    simp only
    split
    · simp
    · split_ifs with h1 h2
      · simp
      · exact absurd h2.1 hc
      · exact Int.natCast_nonneg _

/-- C5: with the cache enabled, when the read of the key built from the query and
the page succeeds, the handler answers with the deserialization of the stored
value (serialized for the response); its only effect is that read: no fetch and
no cache write. -/
theorem cache_hit (c : Collaborators) (q : Text) (pv : Option Text) (v : Text)
    (h : c.redisGet (cacheKey q (searchPageParam pv)) = .ok v) :
    (searchHandler c true q pv).result = .ok (c.jsonMarshal (c.jsonUnmarshal v [])) ∧
    (searchHandler c true q pv).effects = [Effect.redisGet (cacheKey q (searchPageParam pv))] ∧
    (∀ ef ∈ (searchHandler c true q pv).effects, ef.isVisit = false ∧ ef.isRedisSet = false) := by
  simp [searchHandler, h, Effect.isVisit, Effect.isRedisSet]

/-- Witness of `cache_hit`: a populated cache, the query "a", no page parameter. -/
theorem cache_hit_witness :
    fullCache.redisGet (cacheKey "a".toList (searchPageParam none)) = .ok "[]".toList ∧
    (searchHandler fullCache true "a".toList none).result
      = .ok (fullCache.jsonMarshal (fullCache.jsonUnmarshal "[]".toList [])) ∧
    (searchHandler fullCache true "a".toList none).effects
      = [Effect.redisGet (cacheKey "a".toList (searchPageParam none))] ∧
    (∀ ef ∈ (searchHandler fullCache true "a".toList none).effects,
      ef.isVisit = false ∧ ef.isRedisSet = false) :=
  ⟨rfl, cache_hit fullCache "a".toList none "[]".toList rfl⟩

/-- C6 as stated fails: with the cache enabled and an empty cache, a fetch that
fails ends the run in `logger.Fatal`: the handler reads the key and fetches, but
writes nothing to the cache and returns no sequence. -/
theorem cache_miss_fetch_fails :
    emptyCacheNoNetwork.redisGet (cacheKey "a".toList (searchPageParam none))
      = .error RedisError.Nil ∧
    (searchHandler emptyCacheNoNetwork true "a".toList none).result = .error Abort.fatal ∧
    (searchHandler emptyCacheNoNetwork true "a".toList none).effects
      = [Effect.redisGet "jisho-concept-query:a@1".toList,
         Effect.visit "https://jisho.org/search/a?page=1".toList] ∧
    (∀ ef ∈ (searchHandler emptyCacheNoNetwork true "a".toList none).effects,
      ef.isRedisSet = false) := by
  decide

/-- C6 amended: with the cache enabled, when the read of the key fails with any
error, the handler fetches exactly once; when the fetch fails the run ends in
`logger.Fatal` after the read and the fetch, with no cache write and no
response; when fetch+extract yields a sequence the handler writes its
serialization under the key it tried to read, with expiration 0, and answers
with that sequence. -/
theorem cache_miss (c : Collaborators) (q : Text) (pv : Option Text) (err : RedisError)
    (h : c.redisGet (cacheKey q (searchPageParam pv)) = .error err) :
    (searchHandler c true q pv).effects.filter Effect.isVisit
      = [Effect.visit (searchURL q (searchPageParam pv))] ∧
    (∀ e, c.visit (searchURL q (searchPageParam pv)) = .error e →
      (searchHandler c true q pv).result = .error Abort.fatal ∧
      (searchHandler c true q pv).effects
        = [Effect.redisGet (cacheKey q (searchPageParam pv)),
           Effect.visit (searchURL q (searchPageParam pv))]) ∧
    (∀ concepts, (SearchJisho c q (searchPageParam pv)).result = .ok concepts →
      (searchHandler c true q pv).effects
        = [Effect.redisGet (cacheKey q (searchPageParam pv)),
           Effect.visit (searchURL q (searchPageParam pv)),
           Effect.redisSet (cacheKey q (searchPageParam pv)) (c.jsonMarshal concepts) 0] ∧
      (searchHandler c true q pv).result = .ok (c.jsonMarshal concepts)) := by
  refine ⟨?_, ?_, ?_⟩
  · simp only [searchHandler, h, if_true]
    cases hr : (SearchJisho c q (searchPageParam pv)).result <;>
      simp [SearchJisho, Effect.isVisit, List.filter]
  · intro e he
    have hr : (SearchJisho c q (searchPageParam pv)).result = .error Abort.fatal := by
      simp [SearchJisho, he]
    simp only [searchHandler, h, if_true, hr]
    simp [SearchJisho]
  · intro concepts hc
    simp only [searchHandler, h, if_true, hc]
    simp [SearchJisho]

/-- Witness of `cache_miss`: an empty cache, the query "a", no page parameter. -/
theorem cache_miss_witness :
    emptyCache.redisGet (cacheKey "a".toList (searchPageParam none)) = .error RedisError.Nil ∧
    ((searchHandler emptyCache true "a".toList none).effects.filter Effect.isVisit
      = [Effect.visit (searchURL "a".toList (searchPageParam none))] ∧
    (∀ e, emptyCache.visit (searchURL "a".toList (searchPageParam none)) = .error e →
      (searchHandler emptyCache true "a".toList none).result = .error Abort.fatal ∧
      (searchHandler emptyCache true "a".toList none).effects
        = [Effect.redisGet (cacheKey "a".toList (searchPageParam none)),
           Effect.visit (searchURL "a".toList (searchPageParam none))]) ∧
    (∀ concepts,
      (SearchJisho emptyCache "a".toList (searchPageParam none)).result = .ok concepts →
      (searchHandler emptyCache true "a".toList none).effects
        = [Effect.redisGet (cacheKey "a".toList (searchPageParam none)),
           Effect.visit (searchURL "a".toList (searchPageParam none)),
           Effect.redisSet (cacheKey "a".toList (searchPageParam none))
             (emptyCache.jsonMarshal concepts) 0] ∧
      (searchHandler emptyCache true "a".toList none).result
        = .ok (emptyCache.jsonMarshal concepts))) :=
  ⟨rfl, cache_miss emptyCache "a".toList none RedisError.Nil rfl⟩

/-- Every effect of the handler is a read of the cache key, a fetch of the search
URL, or a write under the cache key with expiration 0. -/
theorem searchHandler_effects (c : Collaborators) (useRedisCache : Bool) (q : Text)
    (pv : Option Text) (ef : Effect) (hef : ef ∈ (searchHandler c useRedisCache q pv).effects) :
    ef = Effect.redisGet (cacheKey q (searchPageParam pv)) ∨
    ef = Effect.visit (searchURL q (searchPageParam pv)) ∨
    ∃ value, ef = Effect.redisSet (cacheKey q (searchPageParam pv)) value 0 := by
  simp only [searchHandler] at hef
  cases useRedisCache
  · simp only [Bool.false_eq_true, if_false] at hef
    cases hr : (SearchJisho c q (searchPageParam pv)).result <;> rw [hr] at hef <;>
      simp only [SearchJisho, List.mem_singleton] at hef <;> simp [hef]
  · simp only [if_true] at hef
    cases hg : c.redisGet (cacheKey q (searchPageParam pv)) <;> rw [hg] at hef
    · cases hr : (SearchJisho c q (searchPageParam pv)).result <;> rw [hr] at hef <;>
        simp only [SearchJisho, List.mem_cons, List.mem_singleton, List.mem_append,
          List.not_mem_nil, or_false, List.cons_append, List.nil_append] at hef <;>
        rcases hef with rfl | hef <;> (try rcases hef with rfl | rfl) <;> simp
    · simp only [List.mem_singleton] at hef
      simp [hef]

/-- C7: when the page parameter is absent or its value is zero, the page number is
1, the cache key ends in "@1", the fetch URL ends in "?page=1", and every
cache read, cache write and fetch of the handler uses that key and that URL. -/
theorem default_pagination (q : Text) (pv : Option Text)
    (h : pv = none ∨ ∃ t, pv = some t ∧ (strconv.Atoi t).1 = 0) :
    searchPageParam pv = 1 ∧
    cacheKey q (searchPageParam pv) = "jisho-concept-query:".toList ++ q ++ "@1".toList ∧
    searchURL q (searchPageParam pv) = "https://jisho.org/search/".toList ++ q ++ "?page=1".toList ∧
    (∀ (c : Collaborators) (useRedisCache : Bool),
      ∀ ef ∈ (searchHandler c useRedisCache q pv).effects,
        ef = Effect.redisGet ("jisho-concept-query:".toList ++ q ++ "@1".toList) ∨
        ef = Effect.visit ("https://jisho.org/search/".toList ++ q ++ "?page=1".toList) ∨
        ∃ value, ef = Effect.redisSet ("jisho-concept-query:".toList ++ q ++ "@1".toList) value 0) := by
  have hp : searchPageParam pv = 1 := by
    rcases h with h | ⟨t, h, h0⟩
    · subst h; rfl
    · subst h; simp [searchPageParam, queryGet, h0]
  have hk : cacheKey q 1 = "jisho-concept-query:".toList ++ q ++ "@1".toList := by
    simp [cacheKey, fmt.formatInt, fmt.fmtDecimal, fmt.digit]
  have hu : searchURL q 1 = "https://jisho.org/search/".toList ++ q ++ "?page=1".toList := by
    simp [searchURL, fmt.formatInt, fmt.fmtDecimal, fmt.digit]
  refine ⟨hp, by rw [hp, hk], by rw [hp, hu], ?_⟩
  intro c useRedisCache ef hef
  have hm := searchHandler_effects c useRedisCache q pv ef hef
  rw [hp, hk, hu] at hm
  exact hm

/-- Witness of `default_pagination`: the query "a" with the page parameter "0". -/
theorem default_pagination_witness :
    searchPageParam (some "0".toList) = 1 ∧
    cacheKey "a".toList (searchPageParam (some "0".toList))
      = "jisho-concept-query:".toList ++ "a".toList ++ "@1".toList ∧
    searchURL "a".toList (searchPageParam (some "0".toList))
      = "https://jisho.org/search/".toList ++ "a".toList ++ "?page=1".toList ∧
    (∀ (c : Collaborators) (useRedisCache : Bool),
      ∀ ef ∈ (searchHandler c useRedisCache "a".toList (some "0".toList)).effects,
        ef = Effect.redisGet ("jisho-concept-query:".toList ++ "a".toList ++ "@1".toList) ∨
        ef = Effect.visit ("https://jisho.org/search/".toList ++ "a".toList ++ "?page=1".toList) ∨
        ∃ value, ef = Effect.redisSet
          ("jisho-concept-query:".toList ++ "a".toList ++ "@1".toList) value 0) :=
  default_pagination "a".toList (some "0".toList) (Or.inr ⟨"0".toList, rfl, by decide⟩)

/-- C8 as stated fails: the page parameter "-3" gives the page number -3, which
the handler puts into the cache key and into the fetch URL. -/
theorem page_negative_counterexample :
    ¬ (1 ≤ searchPageParam (some "-3".toList)) ∧
    searchPageParam (some "-3".toList) = -3 ∧
    (searchHandler emptyCache true "a".toList (some "-3".toList)).effects
      = [Effect.redisGet "jisho-concept-query:a@-3".toList,
         Effect.visit "https://jisho.org/search/a?page=-3".toList,
         Effect.redisSet "jisho-concept-query:a@-3".toList "今日は".toList 0] := by
  decide

/-- C8 amended: when the page parameter is absent, does not start with a minus
sign, or converts to a value that is not negative, the page number is at least
1 and every cache read, cache write and fetch of the handler uses the key and
the URL of a page number that is at least 1; a parameter that converts to a
negative value starts with a minus sign, and that negative value is the page
number in the key and the URL of every effect of the handler. -/
theorem page_at_least_one (q : Text) (pv : Option Text)
    (h : pv = none ∨ ∃ t, pv = some t ∧ (t.head? ≠ some '-' ∨ 0 ≤ (strconv.Atoi t).1)) :
    1 ≤ searchPageParam pv ∧
    (∀ (c : Collaborators) (useRedisCache : Bool),
      ∀ ef ∈ (searchHandler c useRedisCache q pv).effects,
        ∃ page : Int, 1 ≤ page ∧
          (ef = Effect.redisGet (cacheKey q page) ∨
           ef = Effect.visit (searchURL q page) ∨
           ∃ value, ef = Effect.redisSet (cacheKey q page) value 0)) ∧
    (∀ t, (strconv.Atoi t).1 < 0 →
      t.head? = some '-' ∧
      searchPageParam (some t) = (strconv.Atoi t).1 ∧
      ∀ (c : Collaborators) (useRedisCache : Bool),
        ∀ ef ∈ (searchHandler c useRedisCache q (some t)).effects,
          ef = Effect.redisGet (cacheKey q (strconv.Atoi t).1) ∨
          ef = Effect.visit (searchURL q (strconv.Atoi t).1) ∨
          ∃ value, ef = Effect.redisSet (cacheKey q (strconv.Atoi t).1) value 0) := by
  have hp : 1 ≤ searchPageParam pv := by
    rcases h with h | ⟨t, h, h0⟩
    · subst h; decide
    · subst h
      have h1 : 0 ≤ (strconv.Atoi t).1 := by
        rcases h0 with h0 | h0
        · exact atoi_nonneg_of_no_minus t h0
        · exact h0
      simp only [searchPageParam, queryGet, Option.getD_some]
      split_ifs with hz
      · decide
      · omega
  refine ⟨hp, ?_, ?_⟩
  · intro c useRedisCache ef hef
    exact ⟨searchPageParam pv, hp, searchHandler_effects c useRedisCache q pv ef hef⟩
  · intro t ht
    have hpage : searchPageParam (some t) = (strconv.Atoi t).1 := by
      simp only [searchPageParam, queryGet, Option.getD_some]
      split_ifs with hz
      · omega
      · rfl
    refine ⟨?_, hpage, ?_⟩
    · by_contra hh
      have := atoi_nonneg_of_no_minus t hh
      omega
    · intro c useRedisCache ef hef
      have hm := searchHandler_effects c useRedisCache q (some t) ef hef
      rw [hpage] at hm
      exact hm

/-- Witness of `page_at_least_one`: the query "a" with the page parameter "7". -/
theorem page_at_least_one_witness :
    searchPageParam (some "7".toList) = 7 ∧
    (1 ≤ searchPageParam (some "7".toList) ∧
    (∀ (c : Collaborators) (useRedisCache : Bool),
      ∀ ef ∈ (searchHandler c useRedisCache "a".toList (some "7".toList)).effects,
        ∃ page : Int, 1 ≤ page ∧
          (ef = Effect.redisGet (cacheKey "a".toList page) ∨
           ef = Effect.visit (searchURL "a".toList page) ∨
           ∃ value, ef = Effect.redisSet (cacheKey "a".toList page) value 0)) ∧
    (∀ t, (strconv.Atoi t).1 < 0 →
      t.head? = some '-' ∧
      searchPageParam (some t) = (strconv.Atoi t).1 ∧
      ∀ (c : Collaborators) (useRedisCache : Bool),
        ∀ ef ∈ (searchHandler c useRedisCache "a".toList (some t)).effects,
          ef = Effect.redisGet (cacheKey "a".toList (strconv.Atoi t).1) ∨
          ef = Effect.visit (searchURL "a".toList (strconv.Atoi t).1) ∨
          ∃ value, ef = Effect.redisSet (cacheKey "a".toList (strconv.Atoi t).1) value 0)) :=
  ⟨by decide,
   page_at_least_one "a".toList (some "7".toList) (Or.inr ⟨"7".toList, rfl, Or.inl (by decide)⟩)⟩

/-- Page parameters below the range of `int` give the page number -2^63, also when
other characters follow the digits that overflow. -/
theorem page_clamped :
    strconv.Atoi "-9223372036854775809".toList
      = (-9223372036854775808, some strconv.NumError.ErrRange) ∧
    searchPageParam (some "-9223372036854775809".toList) = -9223372036854775808 ∧
    searchPageParam (some "-99999999999999999999x".toList) = -9223372036854775808 ∧
    searchPageParam (some "-x".toList) = 1 := by
  decide

/-! ## Start-up configuration -/

/-- C9 fails on the code: with `JISHO_API_REDIS_DB` set to "5", which parses as 5
without error, the client is created with database index 0; a setting that does
not parse because it is out of range gives the index 2^63 - 1. -/
theorem redis_db_ignored :
    strconv.Atoi "5".toList = (5, none) ∧
    redisClientOptions envDbFive
      = some { Addr := "localhost:6379".toList, Password := [], DB := 0 } ∧
    strconv.Atoi "9223372036854775808".toList
      = (9223372036854775807, some strconv.NumError.ErrRange) ∧
    redisDb "9223372036854775808".toList = 9223372036854775807 := by
  decide

/-- The database index is 0 for every setting that parses, whatever its value. -/
theorem redisDb_of_parsed (s : Text) (n : Int) (h : strconv.Atoi s = (n, none)) :
    redisDb s = 0 := by
  simp [redisDb, h]

/-! ## Malformed result blocks -/

/-- C4 fails on the code: a result block with more annotation slots than characters,
with more definition blocks than tag blocks, or with a tag block without a
child node ends the extraction with a panic; the request of such a page has no
entries as its result. -/
theorem malformed_block_panics :
    scrapeConcept blockTwoSlots = .error Panic.indexOutOfRange ∧
    scrapeConcept blockNoTags = .error Panic.indexOutOfRange ∧
    scrapeConcept blockEmptyTag = .error Panic.nilDereference ∧
    (SearchJisho emptyCacheTwoSlots "a".toList 1).result
      = .error (Abort.panic Panic.indexOutOfRange) ∧
    (searchHandler emptyCacheTwoSlots true "a".toList none).result
      = .error (Abort.panic Panic.indexOutOfRange) ∧
    (searchHandler emptyCacheTwoSlots false "a".toList none).result
      = .error (Abort.panic Panic.indexOutOfRange) := by
  decide

/-! ## Reading reconstruction and meaning filtering -/

/-- The annotation loop started at index `i` with enough characters left. -/
theorem readingLoop_eq (writing : Text) (slots : List Text) :
    ∀ (i : Nat) (acc : Text), i + slots.length ≤ writing.length →
      readingLoop writing i slots acc
        = .ok (acc ++ (List.zipWith readingSegment (writing.drop i) slots).flatten) := by
  induction slots with
  | nil => intro i acc _; simp [readingLoop]
  | cons s rest ih =>
    intro i acc h
    have hi : i < writing.length := by simp at h; omega
    have hd : writing.drop i = writing[i] :: writing.drop (i + 1) := List.drop_eq_getElem_cons hi
    have hr : i + 1 + rest.length ≤ writing.length := by simp at h; omega
    by_cases hs : s = []
    · subst hs
      simp only [readingLoop, List.length_nil, gt_iff_lt, lt_self_iff_false, if_false,
        List.getElem?_eq_getElem hi, ih (i + 1) _ hr]
      rw [hd]
      simp [readingSegment, -List.getElem_cons_drop]
    · have hl : s.length > 0 := List.length_pos.mpr hs
      simp only [readingLoop, hl, if_true, List.getElem?_eq_getElem hi, ih (i + 1) _ hr]
      rw [hd]
      simp [readingSegment, hs, -List.getElem_cons_drop]

/-- One step of `keptMeanings`. -/
theorem keptMeanings_cons (t d : Text) (ts ds : List Text) :
    keptMeanings (t :: ts) (d :: ds)
      = if isFiltered t then keptMeanings ts ds
        else { Value := d, Tags := strings.Split t ", ".toList } :: keptMeanings ts ds := by
  by_cases h : isFiltered t <;> simp [keptMeanings, List.zip_cons_cons, List.filter_cons, h]

/-- The definition loop started at index `i` with enough tag blocks left, each
with a first child. -/
theorem meaningsLoop_eq (tagTexts : List Text) (defs : List Text) :
    ∀ (i : Nat) (acc : List JishoConceptMeaning), i + defs.length ≤ tagTexts.length →
      meaningsLoop (tagTexts.map some) i defs acc
        = .ok (acc ++ keptMeanings (tagTexts.drop i) defs) := by
  induction defs with
  | nil => intro i acc _; simp [meaningsLoop, keptMeanings]
  | cons d rest ih =>
    intro i acc h
    have hi : i < tagTexts.length := by simp at h; omega
    have hd : tagTexts.drop i = tagTexts[i] :: tagTexts.drop (i + 1) := List.drop_eq_getElem_cons hi
    have hr : i + 1 + rest.length ≤ tagTexts.length := by simp at h; omega
    have hg : (tagTexts.map some)[i]? = some (some tagTexts[i]) := by
      simp [List.getElem?_eq_getElem hi]
    rw [hd, keptMeanings_cons]
    simp only [meaningsLoop, hg]
    by_cases hf : isFiltered tagTexts[i]
    · have : ¬ ((!strings.Contains tagTexts[i] "Other forms".toList
          && !strings.Contains tagTexts[i] "Notes".toList) = true) := by
        simp only [isFiltered] at hf
        revert hf
        cases strings.Contains tagTexts[i] "Other forms".toList <;>
          cases strings.Contains tagTexts[i] "Notes".toList <;> simp
      rw [if_neg this, if_pos hf]
      exact ih (i + 1) acc hr
    · have : ((!strings.Contains tagTexts[i] "Other forms".toList
          && !strings.Contains tagTexts[i] "Notes".toList) = true) := by
        simp only [isFiltered] at hf
        revert hf
        cases strings.Contains tagTexts[i] "Other forms".toList <;>
          cases strings.Contains tagTexts[i] "Notes".toList <;> simp
      rw [if_pos this, if_neg hf, ih (i + 1) _ hr]
      simp

/-- Kept and filtered positions add up to all positions. -/
theorem keptMeanings_length (tagTexts : List Text) :
    ∀ defs : List Text, tagTexts.length = defs.length →
      (keptMeanings tagTexts defs).length + tagTexts.countP isFiltered = tagTexts.length := by
  induction tagTexts with
  | nil => intro defs _; simp [keptMeanings]
  | cons t ts ih =>
    intro defs h
    cases defs with
    | nil => simp at h
    | cons d ds =>
      have h2 : ts.length = ds.length := by simpa using h
      have := ih ds h2
      rw [keptMeanings_cons]
      by_cases hf : isFiltered t
      · simp [hf, List.countP_cons]; omega
      · simp [hf, List.countP_cons]; omega

/-- C1: for a result block whose trimmed writing has N characters and which has
exactly N annotation slots, the annotation loop completes and the reading is
the concatenation, in order, of the segments of the character/slot pairs: the
character alone for an empty slot, `<character>(<slot text>)` otherwise; this is
the reading of the entry the block yields. -/
theorem reading_reconstruction (e : ConceptLight)
    (h : e.furigana.length = (strings.TrimSpace e.writingText).length) :
    readingLoop (strings.TrimSpace e.writingText) 0 e.furigana []
      = .ok (List.zipWith readingSegment (strings.TrimSpace e.writingText) e.furigana).flatten ∧
    (∀ entry, scrapeConcept e = .ok entry →
      entry.Writing = strings.TrimSpace e.writingText ∧
      entry.Reading
        = (List.zipWith readingSegment (strings.TrimSpace e.writingText) e.furigana).flatten) := by
  have hl := readingLoop_eq (strings.TrimSpace e.writingText) e.furigana 0 [] (by omega)
  simp only [List.drop_zero, List.nil_append] at hl
  refine ⟨hl, ?_⟩
  intro entry he
  simp only [scrapeConcept, hl] at he
  cases hm : meaningsLoop e.meaningTags 0 e.meaningDefinitions [] with
  | error p => rw [hm] at he; cases he
  | ok ms =>
    rw [hm] at he
    cases he
    exact ⟨rfl, rfl⟩

/-- Witness of `reading_reconstruction`: the writing 今日は with the slots きょう, empty, empty. -/
theorem reading_reconstruction_witness :
    scrapeConcept blockKyou
      = .ok { Writing := "今日は".toList, Reading := "今(きょう)日は".toList,
              Meanings := [{ Value := "today".toList, Tags := ["Noun".toList, "Adverb".toList] }],
              Tags := ["Common word".toList] } ∧
    (readingLoop (strings.TrimSpace blockKyou.writingText) 0 blockKyou.furigana []
      = .ok (List.zipWith readingSegment (strings.TrimSpace blockKyou.writingText)
          blockKyou.furigana).flatten ∧
    (∀ entry, scrapeConcept blockKyou = .ok entry →
      entry.Writing = strings.TrimSpace blockKyou.writingText ∧
      entry.Reading
        = (List.zipWith readingSegment (strings.TrimSpace blockKyou.writingText)
            blockKyou.furigana).flatten)) :=
  ⟨by decide, reading_reconstruction blockKyou (by decide)⟩

/-- Meaning filtering on well-formed tag blocks: for tag blocks that each have a first
child (whose data is the tag text) and definition blocks of equal number, the
definition loop completes and the meanings are exactly, in document order, the
Meanings of the positions whose tag text contains neither "Other forms" nor
"Notes"; their number is the number of blocks minus the number of filtered
blocks; these are the meanings of the entry the block yields. -/
theorem meaning_filtering (tagTexts defs : List Text) (h : tagTexts.length = defs.length) :
    meaningsLoop (tagTexts.map some) 0 defs [] = .ok (keptMeanings tagTexts defs) ∧
    (keptMeanings tagTexts defs).length = tagTexts.length - tagTexts.countP isFiltered ∧
    (∀ m ∈ keptMeanings tagTexts defs, ∃ (k : Nat) (t d : Text),
      tagTexts[k]? = some t ∧ defs[k]? = some d ∧ isFiltered t = false ∧
      m = { Value := d, Tags := strings.Split t ", ".toList }) ∧
    (∀ e entry, e.meaningTags = tagTexts.map some → e.meaningDefinitions = defs →
      scrapeConcept e = .ok entry → entry.Meanings = keptMeanings tagTexts defs) := by
  have hl := meaningsLoop_eq tagTexts defs 0 [] (by omega)
  simp only [List.drop_zero, List.nil_append] at hl
  refine ⟨hl, ?_, ?_, ?_⟩
  · have := keptMeanings_length tagTexts defs h
    omega
  · intro m hm
    simp only [keptMeanings, List.mem_map, List.mem_filter] at hm
    obtain ⟨p, ⟨hp, hf⟩, rfl⟩ := hm
    obtain ⟨k, hk, hpk⟩ := List.getElem_of_mem hp
    have hk1 : k < tagTexts.length := by
      have := hk; simp only [List.length_zip] at this; omega
    have hk2 : k < defs.length := by
      have := hk; simp only [List.length_zip] at this; omega
    rw [List.getElem_zip] at hpk
    refine ⟨k, tagTexts[k], defs[k], List.getElem?_eq_getElem hk1, List.getElem?_eq_getElem hk2,
      ?_, ?_⟩
    · rw [← hpk] at hf
      simpa using hf
    · rw [← hpk]
  · intro e entry ht hd he
    simp only [scrapeConcept, ht, hd, hl] at he
    cases hr : readingLoop (strings.TrimSpace e.writingText) 0 e.furigana [] with
    | error p => rw [hr] at he; cases he
    | ok r =>
      rw [hr] at he
      cases he
      rfl

/-- Witness of `meaning_filtering`: three blocks, the second one tagged
"Other forms". -/
theorem meaning_filtering_witness :
    keptMeanings sampleTagTexts sampleDefinitions
      = [{ Value := "a".toList, Tags := ["Noun".toList] },
         { Value := "c".toList, Tags := ["Noun".toList, "Suru verb".toList] }] ∧
    (meaningsLoop (sampleTagTexts.map some) 0 sampleDefinitions []
      = .ok (keptMeanings sampleTagTexts sampleDefinitions) ∧
    (keptMeanings sampleTagTexts sampleDefinitions).length
      = sampleTagTexts.length - sampleTagTexts.countP isFiltered ∧
    (∀ m ∈ keptMeanings sampleTagTexts sampleDefinitions, ∃ (k : Nat) (t d : Text),
      sampleTagTexts[k]? = some t ∧ sampleDefinitions[k]? = some d ∧ isFiltered t = false ∧
      m = { Value := d, Tags := strings.Split t ", ".toList }) ∧
    (∀ e entry, e.meaningTags = sampleTagTexts.map some →
      e.meaningDefinitions = sampleDefinitions →
      scrapeConcept e = .ok entry →
      entry.Meanings = keptMeanings sampleTagTexts sampleDefinitions)) :=
  ⟨by decide, meaning_filtering sampleTagTexts sampleDefinitions (by decide)⟩

/-- C2 fails on the code: two tag blocks and two definition blocks, the second tag
block without a child node: the definition loop panics at `FirstChild.Data` and
the result block has no entry and no meanings. -/
theorem meaning_filtering_empty_tag_block :
    blockSecondTagEmpty.meaningTags.length = blockSecondTagEmpty.meaningDefinitions.length ∧
    meaningsLoop blockSecondTagEmpty.meaningTags 0 blockSecondTagEmpty.meaningDefinitions []
      = .error Panic.nilDereference ∧
    scrapeConcept blockSecondTagEmpty = .error Panic.nilDereference := by
  decide

/-! ## The cache key -/

/-- The code point of a decimal digit. -/
theorem digit_toNat (d : Nat) (h : d < 10) : (fmt.digit d).toNat = 48 + d := by
  interval_cases d <;> rfl

/-- The digit loop puts its digits in front of the accumulator. -/
theorem fmtDecimal_append (fuel : Nat) :
    ∀ (u : Nat) (acc : Text), fmt.fmtDecimal fuel u acc = fmt.fmtDecimal fuel u [] ++ acc := by
  induction fuel with
  | zero => intro u acc; simp [fmt.fmtDecimal]
  | succ n ih =>
    intro u acc
    simp only [fmt.fmtDecimal]
    split_ifs with h
    · rw [ih (u / 10) (fmt.digit (u % 10) :: acc), ih (u / 10) [fmt.digit (u % 10)]]
      simp
    · simp

/-- The digit loop produces decimal digits only. -/
theorem fmtDecimal_digits (fuel : Nat) :
    ∀ (u : Nat), ∀ c ∈ fmt.fmtDecimal fuel u [], 48 ≤ c.toNat ∧ c.toNat ≤ 57 := by
  induction fuel with
  | zero => intro u c hc; simp [fmt.fmtDecimal] at hc
  | succ n ih =>
    intro u c hc
    simp only [fmt.fmtDecimal] at hc
    split_ifs at hc with h
    · rw [fmtDecimal_append] at hc
      rcases List.mem_append.mp hc with hc | hc
      · exact ih _ c hc
      · simp only [List.mem_singleton] at hc
        subst hc
        rw [digit_toNat _ (Nat.mod_lt _ (by decide))]
        have := Nat.mod_lt u (show 10 > 0 by decide)
        omega
    · simp only [List.mem_singleton] at hc
      subst hc
      rw [digit_toNat _ (by omega)]
      omega

/-- Reading back what the digit loop wrote gives the number. -/
theorem decodeDecimal_fmtDecimal (fuel : Nat) :
    ∀ (u : Nat), u < fuel → decodeDecimal (fmt.fmtDecimal fuel u []) = u := by
  induction fuel with
  | zero => intro u h; omega
  | succ n ih =>
    intro u hu
    simp only [fmt.fmtDecimal]
    split_ifs with h
    · rw [fmtDecimal_append]
      have h1 : u / 10 < n := by omega
      have h2 := ih (u / 10) h1
      simp only [decodeDecimal] at h2 ⊢
      rw [List.foldl_append, h2]
      simp only [List.foldl_cons, List.foldl_nil]
      rw [digit_toNat _ (Nat.mod_lt _ (by decide))]
      omega
    · simp only [decodeDecimal, List.foldl_cons, List.foldl_nil]
      rw [digit_toNat _ (by omega)]
      omega

/-- The verb `%d` never writes an '@'. -/
theorem at_not_mem_formatInt (n : Int) : '@' ∉ fmt.formatInt n := by
  intro h
  unfold fmt.formatInt at h
  split_ifs at h
  · rcases List.mem_cons.mp h with h | h
    · exact absurd h (by decide)
    · have := fmtDecimal_digits _ _ _ h
      revert this; decide
  · have := fmtDecimal_digits _ _ _ h
    revert this; decide

/-- The verb `%d` writes different integers differently. -/
theorem formatInt_injective (a b : Int) (h : fmt.formatInt a = fmt.formatInt b) : a = b := by
  unfold fmt.formatInt at h
  split_ifs at h with ha hb hb
  · have h1 := congrArg decodeDecimal (List.cons.inj h).2
    rw [decodeDecimal_fmtDecimal _ _ (by omega), decodeDecimal_fmtDecimal _ _ (by omega)] at h1
    omega
  · have hm : '-' ∈ fmt.fmtDecimal (b.natAbs + 1) b.natAbs [] := by rw [← h]; simp
    exact absurd (fmtDecimal_digits _ _ _ hm) (by decide)
  · have hm : '-' ∈ fmt.fmtDecimal (a.natAbs + 1) a.natAbs [] := by rw [h]; simp
    exact absurd (fmtDecimal_digits _ _ _ hm) (by decide)
  · have h1 := congrArg decodeDecimal h
    rw [decodeDecimal_fmtDecimal _ _ (by omega), decodeDecimal_fmtDecimal _ _ (by omega)] at h1
    omega

/-- Two texts cut at an element that does not occur in front of the cut are cut
at the same place. -/
theorem append_cons_unique {α : Type} (a : α) :
    ∀ (x1 x2 y1 y2 : List α), a ∉ x1 → a ∉ x2 → x1 ++ a :: y1 = x2 ++ a :: y2 →
      x1 = x2 ∧ y1 = y2 := by
  intro x1
  induction x1 with
  | nil =>
    intro x2 y1 y2 _ h2 h
    cases x2 with
    | nil => simpa using h
    | cons b x2 =>
      simp only [List.nil_append, List.cons_append, List.cons.injEq] at h
      exact absurd (h.1 ▸ List.mem_cons_self _ _) h2
  | cons c x1 ih =>
    intro x2 y1 y2 h1 h2 h
    cases x2 with
    | nil =>
      simp only [List.nil_append, List.cons_append, List.cons.injEq] at h
      exact absurd (h.1 ▸ List.mem_cons_self _ _) h1
    | cons b x2 =>
      simp only [List.cons_append, List.cons.injEq] at h
      have := ih x2 y1 y2 (fun hm => h1 (List.mem_cons_of_mem _ hm))
        (fun hm => h2 (List.mem_cons_of_mem _ hm)) h.2
      exact ⟨by rw [h.1, this.1], this.2⟩

/-- C10: the cache key determines the query and the page: equal keys come from
equal queries and equal pages, whatever characters the queries contain. -/
theorem cacheKey_injective (q1 q2 : Text) (p1 p2 : Int)
    (h : cacheKey q1 p1 = cacheKey q2 p2) : q1 = q2 ∧ p1 = p2 := by
  unfold cacheKey at h
  simp only [List.append_assoc] at h
  have h1 := List.append_cancel_left h
  have h2 := congrArg List.reverse h1
  simp only [List.reverse_append, List.append_assoc] at h2
  have h3 : (fmt.formatInt p1).reverse ++ '@' :: q1.reverse
      = (fmt.formatInt p2).reverse ++ '@' :: q2.reverse := by simpa using h2
  have h4 := append_cons_unique '@' _ _ _ _
    (fun hm => at_not_mem_formatInt p1 (List.mem_reverse.mp hm))
    (fun hm => at_not_mem_formatInt p2 (List.mem_reverse.mp hm)) h3
  exact ⟨List.reverse_injective h4.2, formatInt_injective _ _ (List.reverse_injective h4.1)⟩

/-- Witness of `cacheKey_injective`: a query that contains '@' and digits. -/
theorem cacheKey_injective_witness :
    cacheKey "a@1".toList 2 = "jisho-concept-query:a@1@2".toList ∧
    ("a@1".toList = "a@1".toList ∧ (2 : Int) = 2) :=
  ⟨by decide, cacheKey_injective "a@1".toList "a@1".toList 2 2 rfl⟩

/-! ## Tag splitting -/

/-- A text with an instance of `substr` at position `m` is the text in front of
it, `substr`, and the text behind it. -/
theorem index_split (substr : Text) :
    ∀ (s : Text) (m : Nat), strings.Index s substr = some m →
      s = s.take m ++ (substr ++ s.drop (m + substr.length)) := by
  intro s
  induction s with
  | nil =>
    intro m h
    simp only [strings.Index] at h
    split_ifs at h with he
    have : substr = [] := List.isEmpty_iff.mp he
    subst this
    simp
  | cons c rest ih =>
    intro m h
    simp only [strings.Index] at h
    split_ifs at h with hp
    · cases h
      obtain ⟨t, ht⟩ := List.isPrefixOf_iff_prefix.mp hp
      rw [← ht]
      simp
    · cases hr : strings.Index rest substr with
      | none => rw [hr] at h; simp at h
      | some k =>
        rw [hr] at h
        simp only [Option.map_some', Option.some.injEq] at h
        subst h
        have := ih k hr
        simp only [List.take_succ_cons, List.cons_append, List.cons.injEq, true_and]
        rw [show k + 1 + substr.length = (k + substr.length) + 1 by omega, List.drop_succ_cons]
        exact this

/-- An instance of a non-empty `substr` lies inside the text. -/
theorem index_bound (substr s : Text) (m : Nat) (hne : substr ≠ [])
    (h : strings.Index s substr = some m) : m + substr.length ≤ s.length := by
  have h1 := congrArg List.length (index_split substr s m h)
  simp only [List.length_append, List.length_take, List.length_drop] at h1
  have : 0 < substr.length := List.length_pos.mpr hne
  omega

/-- In front of the first instance of `substr` there is no instance of it. -/
theorem index_take_none (substr : Text) (hne : substr ≠ []) :
    ∀ (s : Text) (m : Nat), strings.Index s substr = some m →
      strings.Index (s.take m) substr = none := by
  have hemp : substr.isEmpty = false := by
    cases substr with
    | nil => exact absurd rfl hne
    | cons _ _ => rfl
  intro s
  induction s with
  | nil =>
    intro m h
    simp [strings.Index, hemp] at h
  | cons c rest ih =>
    intro m h
    simp only [strings.Index] at h
    split_ifs at h with hp
    · cases h
      simp [strings.Index, hemp]
    · cases hr : strings.Index rest substr with
      | none => rw [hr] at h; simp at h
      | some k =>
        rw [hr] at h
        simp only [Option.map_some', Option.some.injEq] at h
        subst h
        simp only [List.take_succ_cons, strings.Index]
        have hnp : ¬ substr.isPrefixOf (c :: List.take k rest) = true := by
          intro hq
          apply hp
          rw [List.isPrefixOf_iff_prefix] at hq ⊢
          exact hq.trans ((List.prefix_cons_inj c).mpr (List.take_prefix k rest))
        rw [if_neg hnp, ih k hr]
        rfl

/-- The split loop returns at least one piece. -/
theorem splitLoop_ne_nil (sep : Text) (n : Nat) (s : Text) : strings.splitLoop sep n s ≠ [] := by
  cases n with
  | zero => simp [strings.splitLoop]
  | succ n =>
    simp only [strings.splitLoop]
    split <;> simp

/-- Joining a piece and at least one more piece. -/
theorem intercalate_cons (sep a : Text) (l : List Text) (h : l ≠ []) :
    sep.intercalate (a :: l) = a ++ (sep ++ sep.intercalate l) := by
  cases l with
  | nil => exact absurd rfl h
  | cons b l => simp [List.intercalate, List.intersperse]

/-- Joining the pieces of the split loop gives back the text. -/
theorem splitLoop_join (sep : Text) (n : Nat) :
    ∀ s : Text, sep.intercalate (strings.splitLoop sep n s) = s := by
  induction n with
  | zero => intro s; simp [strings.splitLoop, List.intercalate]
  | succ n ih =>
    intro s
    simp only [strings.splitLoop]
    cases hi : strings.Index s sep with
    | none => simp [List.intercalate]
    | some m =>
      simp only
      rw [intercalate_cons _ _ _ (splitLoop_ne_nil _ _ _), ih]
      exact (index_split sep s m hi).symm

/-- With enough cuts allowed, no piece of the split loop contains the separator. -/
theorem splitLoop_no_sep (sep : Text) (hne : sep ≠ []) (n : Nat) :
    ∀ s : Text, s.length ≤ n → ∀ p ∈ strings.splitLoop sep n s, strings.Index p sep = none := by
  have hemp : sep.isEmpty = false := by
    cases sep with
    | nil => exact absurd rfl hne
    | cons _ _ => rfl
  induction n with
  | zero =>
    intro s hs p hp
    have : s = [] := List.length_eq_zero.mp (by omega)
    subst this
    simp only [strings.splitLoop, List.mem_singleton] at hp
    subst hp
    simp [strings.Index, hemp]
  | succ n ih =>
    intro s hs p hp
    simp only [strings.splitLoop] at hp
    cases hi : strings.Index s sep with
    | none =>
      rw [hi] at hp
      simp only [List.mem_singleton] at hp
      subst hp
      exact hi
    | some m =>
      rw [hi] at hp
      simp only [List.mem_cons] at hp
      rcases hp with hp | hp
      · subst hp
        exact index_take_none sep hne s m hi
      · have hb := index_bound sep s m hne hi
        have : 0 < sep.length := List.length_pos.mpr hne
        refine ih _ ?_ p hp
        simp only [List.length_drop]
        omega


/-- Behind a text without the two-character separator, the separator is found
right at the end of that text. -/
theorem index_append_sep (a b : Char) (hab : a ≠ b) (rest : Text) :
    ∀ p : Text, strings.Index p [a, b] = none →
      strings.Index (p ++ a :: b :: rest) [a, b] = some p.length := by
  intro p
  induction p with
  | nil => intro _; simp [strings.Index, List.isPrefixOf]
  | cons c p ih =>
    intro h
    simp only [strings.Index] at h
    split_ifs at h with hp
    have hn : strings.Index p [a, b] = none := by
      cases hi : strings.Index p [a, b] with
      | none => rfl
      | some k => rw [hi] at h; simp at h
    have hq : ¬ List.isPrefixOf [a, b] (c :: (p ++ a :: b :: rest)) = true := by
      cases p with
      | nil =>
        simp only [List.nil_append, List.isPrefixOf, Bool.and_true, Bool.and_eq_true,
          beq_iff_eq, not_and]
        intro _ h2
        exact absurd h2.symm hab
      | cons x p =>
        simp only [List.isPrefixOf, Bool.and_true] at hp ⊢
        exact hp
    show strings.Index (c :: (p ++ a :: b :: rest)) [a, b] = some (p.length + 1)
    unfold strings.Index
    rw [if_neg hq, ih hn]
    rfl

/-- Pieces without the two-character separator are what the split loop returns
for their join. -/
theorem splitLoop_unique (a b : Char) (hab : a ≠ b) :
    ∀ pieces : List Text, pieces ≠ [] →
      (∀ p ∈ pieces, strings.Index p [a, b] = none) →
      ∀ n, (List.intercalate [a, b] pieces).length ≤ n →
        strings.splitLoop [a, b] n (List.intercalate [a, b] pieces) = pieces := by
  intro pieces
  induction pieces with
  | nil => intro h; exact absurd rfl h
  | cons p l ih =>
    intro _ hp n hn
    cases l with
    | nil =>
      have hj : List.intercalate [a, b] [p] = p := by simp [List.intercalate]
      rw [hj]
      cases n with
      | zero => rfl
      | succ n => simp [strings.splitLoop, hp p (List.mem_cons_self _ _)]
    | cons q l =>
      have hj := intercalate_cons [a, b] p (q :: l) (by simp)
      rw [hj] at hn ⊢
      have hi := index_append_sep a b hab (List.intercalate [a, b] (q :: l)) p
        (hp p (List.mem_cons_self _ _))
      simp only [List.cons_append, List.nil_append] at hn ⊢
      simp only [List.length_append, List.length_cons] at hn
      cases n with
      | zero => omega
      | succ n =>
        simp only [strings.splitLoop, hi]
        have ht : List.take p.length (p ++ a :: b :: List.intercalate [a, b] (q :: l)) = p := by
          simp
        have hd : List.drop (p.length + [a, b].length)
            (p ++ a :: b :: List.intercalate [a, b] (q :: l))
            = List.intercalate [a, b] (q :: l) := by
          rw [← List.drop_drop]
          simp
        rw [ht, hd, ih (by simp) (fun r hr => hp r (List.mem_cons_of_mem _ hr)) n (by omega)]

/-- C3: for every tag text that is not filtered out, the Meaning emitted for its
position has as tags the pieces of the tag text separated by ", ", untrimmed:
joining the tags with ", " gives back the tag text, no tag contains ", ", and
these are the only pieces with the two properties; the tag text
"Noun, Suru verb" yields the tags "Noun" and "Suru verb". -/
theorem tag_splitting (t : Text) (h : isFiltered t = false) :
    (∀ (tagTexts defs : List Text) (k : Nat) (d : Text), tagTexts.length = defs.length →
        tagTexts[k]? = some t → defs[k]? = some d →
        ∃ ms, meaningsLoop (tagTexts.map some) 0 defs [] = .ok ms ∧
          { Value := d, Tags := strings.Split t ", ".toList } ∈ ms) ∧
    strings.Join (strings.Split t ", ".toList) ", ".toList = t ∧
    (∀ p ∈ strings.Split t ", ".toList, strings.Contains p ", ".toList = false) ∧
    (∀ pieces : List Text, pieces ≠ [] → strings.Join pieces ", ".toList = t →
        (∀ p ∈ pieces, strings.Contains p ", ".toList = false) →
        pieces = strings.Split t ", ".toList) ∧
    strings.Split "Noun, Suru verb".toList ", ".toList = ["Noun".toList, "Suru verb".toList] := by
  have hs : ", ".toList = [',', ' '] := rfl
  have hsplit : strings.Split t ", ".toList = strings.splitLoop [',', ' '] t.length t := by
    rw [hs]; rfl
  refine ⟨?_, ?_, ?_, ?_, by decide⟩
  · intro tagTexts defs k d hlen ht hd
    have hl := meaningsLoop_eq tagTexts defs 0 [] (by omega)
    simp only [List.drop_zero, List.nil_append] at hl
    refine ⟨_, hl, ?_⟩
    simp only [keptMeanings, List.mem_map, List.mem_filter]
    refine ⟨(t, d), ⟨?_, by simp [h]⟩, rfl⟩
    rw [List.mem_iff_getElem?]
    exact ⟨k, List.getElem?_zip_eq_some.mpr ⟨ht, hd⟩⟩
  · rw [hsplit, strings.Join, hs]
    exact splitLoop_join _ _ _
  · intro p hp
    rw [hsplit] at hp
    have := splitLoop_no_sep [',', ' '] (by simp) t.length t (le_refl _) p hp
    simp [strings.Contains, hs, this]
  · intro pieces hne hj hp
    rw [hsplit, ← hj, strings.Join, hs]
    refine (splitLoop_unique ',' ' ' (by decide) pieces hne ?_ _ (le_refl _)).symm
    intro p hpm
    have := hp p hpm
    simp only [strings.Contains, hs] at this
    cases hi : strings.Index p [',', ' '] with
    | none => rfl
    | some k => rw [hi] at this; simp at this

/-- Witness of `tag_splitting`: the tag text "Noun, Suru verb". -/
theorem tag_splitting_witness :
    isFiltered "Noun, Suru verb".toList = false ∧
    ((∀ (tagTexts defs : List Text) (k : Nat) (d : Text), tagTexts.length = defs.length →
        tagTexts[k]? = some "Noun, Suru verb".toList → defs[k]? = some d →
        ∃ ms, meaningsLoop (tagTexts.map some) 0 defs [] = .ok ms ∧
          { Value := d, Tags := strings.Split "Noun, Suru verb".toList ", ".toList } ∈ ms) ∧
    strings.Join (strings.Split "Noun, Suru verb".toList ", ".toList) ", ".toList
      = "Noun, Suru verb".toList ∧
    (∀ p ∈ strings.Split "Noun, Suru verb".toList ", ".toList,
      strings.Contains p ", ".toList = false) ∧
    (∀ pieces : List Text, pieces ≠ [] →
        strings.Join pieces ", ".toList = "Noun, Suru verb".toList →
        (∀ p ∈ pieces, strings.Contains p ", ".toList = false) →
        pieces = strings.Split "Noun, Suru verb".toList ", ".toList) ∧
    strings.Split "Noun, Suru verb".toList ", ".toList = ["Noun".toList, "Suru verb".toList]) :=
  ⟨by decide, tag_splitting "Noun, Suru verb".toList (by decide)⟩

/-! ## Further facts on the embedding -/

/-- The annotation loop panics when a slot is left for which the writing has no
character. -/
theorem readingLoop_panics (writing : Text) (slots : List Text) :
    ∀ (i : Nat) (acc : Text), i ≤ writing.length → writing.length < i + slots.length →
      readingLoop writing i slots acc = .error Panic.indexOutOfRange := by
  induction slots with
  | nil => intro i acc h1 h2; simp at h2; omega
  | cons s rest ih =>
    intro i acc h1 h2
    simp only [List.length_cons] at h2
    by_cases hi : i < writing.length
    · have hr := fun acc => ih (i + 1) acc (by omega) (by omega)
      simp only [readingLoop, List.getElem?_eq_getElem hi, hr]
      split_ifs <;> rfl
    · have hn : writing[i]? = none := List.getElem?_eq_none (by omega)
      simp only [readingLoop, hn]
      split_ifs <;> rfl

/-- A result block with more annotation slots than characters has no entry. -/
theorem scrapeConcept_more_slots (e : ConceptLight)
    (h : (strings.TrimSpace e.writingText).length < e.furigana.length) :
    scrapeConcept e = .error Panic.indexOutOfRange := by
  have hp := readingLoop_panics (strings.TrimSpace e.writingText) e.furigana 0 []
    (Nat.zero_le _) (by omega)
  simp [scrapeConcept, hp]

/-- The result of a conversion is inside the range of a 64 bit integer. -/
theorem atoi_range (t : Text) :
    -(2 ^ 63) ≤ (strconv.Atoi t).1 ∧ (strconv.Atoi t).1 ≤ 2 ^ 63 - 1 := by
  unfold strconv.Atoi strconv.ParseInt
  cases t with
  | nil => simp
  | cons c rest =>
    simp only
    split
    · simp
    · split_ifs with h1 h2 h3
      · simp
      · simp
      · simp only [not_and, not_lt] at h2
        have := h2 h3
        constructor <;> push_cast <;> omega
      · simp only [not_and, not_le] at h1
        have hneg : ¬ (c == '-') = true := h3
        have := h1 hneg
        constructor <;> push_cast <;> omega

end JishoApi
